import Mathlib

/-!
Verification of the qBOLD variational-encoder repository (model.py, train.py).

The tensor computations are shallowly embedded over an arbitrary linear
ordered field `α` (instantiated with `ℚ` or `ℝ` in the theorems):

* a 4D/5D tensor that is only ever manipulated voxelwise is represented as a
  `List (List α)` (voxels × channels), mirroring the `tf.reshape(_, (-1, C))`
  flattening used throughout the source;
* spatially structured tensors (smoothness loss) are represented as functions
  `Fin b → Fin nx → Fin ny → Fin nz → α`;
* transcendental primitives of the runtime (`tf.exp`, `tf.math.log`,
  `np.sqrt`, the external `tfp` Student-t log-density) are passed as explicit
  function parameters so that every definition stays executable; theorems
  instantiate them with `Real.exp` / `Real.log` where the analytic facts
  matter;
* IEEE NaN produced by the mean of an empty slice is modelled by `Option`:
  `none` is NaN and propagates through division and logarithm.
-/

namespace QBold

/-- Python list slicing `l[a:b]` with negative-index wrap-around and clamping,
as used by `_data[:, se_idx - 1:se_idx + 2]` in `normalise_data`. -/
def pySlice {α : Type} (a b : Int) (l : List α) : List α :=
  let n : Int := l.length
  let s : Int := if a < 0 then max 0 (n + a) else min a n
  let e : Int := if b < 0 then max 0 (n + b) else min b n
  (l.drop s.toNat).take (e.toNat - s.toNat)

/-- Mean of a list of values; `tf.reduce_mean` of an empty slice is NaN,
modelled as `none`. -/
def listMean {α : Type} [LinearOrderedField α] (l : List α) : Option α :=
  if l.length = 0 then none else some (l.sum / (l.length : α))

/-- The batch-axis tiling `tf.concat([x for _ in range(n)], 0)` used to draw
`no_samples` Monte-Carlo replicas. -/
def tile {β : Type} (n : ℕ) (l : List β) : List β :=
  List.flatten (List.replicate n l)

/-- The acquisition/physical constants consumed by `EncoderTrainer.__init__`
(only the two timing parameters are relevant to the claims). -/
structure SysParams where
  tau_start : ℚ
  tau_step : ℚ

/-- The output-distribution family chosen in `__init__`: `LogitMVN()` when
`use_mvg` else `LogitN()` (external `logit_norm_dist` module; the spec fixes
their parameter counts: 5 with a correlation term, else 4). -/
inductive OutputDistKind where
  | LogitMVN : OutputDistKind
  | LogitN : OutputDistKind
deriving DecidableEq

/-- Number of per-voxel posterior parameters of the output distribution. -/
def OutputDistKind.num_params : OutputDistKind → ℕ
  | .LogitMVN => 5
  | .LogitN => 4

/-- State of an `EncoderTrainer` instance after `__init__` ran: exactly the
attributes of the Python object that the embedded methods read.

`use_mvg_attr` models the Python attribute `self._use_mvg`: `__init__`
consumes its `use_mvg` argument only to pick `self.output_dist` (model.py
lines 44-47) and never stores it, so in any constructed object the attribute
is absent, modelled as `none`.  `build_fine_tuner` (line 199) reads it. -/
structure EncoderTrainer where
  multi_image_normalisation : Bool
  student_t_df : Option ℚ
  output_dist : OutputDistKind
  use_population_prior : Bool
  mog_components : ℕ
  no_samples : ℕ
  heteroscedastic_noise : Bool
  predict_log_data : Bool
  use_mvg_attr : Option Bool
  se_idx : ℕ
deriving DecidableEq

/-- `EncoderTrainer.__init__`.  The only run-time failure possible in the
constructor body is the `ZeroDivisionError` from
`float(tau_start) / float(tau_step)`; no other validation is performed.
`se_idx = int(abs(tau_start / tau_step))` (truncation of a non-negative
value, i.e. the floor). -/
def EncoderTrainer.init (system_params : SysParams)
    (student_t_df : Option ℚ) (multi_image_normalisation : Bool)
    (use_mvg : Bool) (use_population_prior : Bool) (mog_components : ℕ)
    (no_samples : ℕ) (heteroscedastic_noise : Bool)
    (predict_log_data : Bool) : Except String EncoderTrainer :=
  if system_params.tau_step = 0 then
    Except.error "ZeroDivisionError"
  else
    Except.ok
      { multi_image_normalisation := multi_image_normalisation
        student_t_df := student_t_df
        output_dist := if use_mvg then .LogitMVN else .LogitN
        use_population_prior := use_population_prior
        mog_components := mog_components
        no_samples := no_samples
        heteroscedastic_noise := heteroscedastic_noise
        predict_log_data := predict_log_data
        use_mvg_attr := none
        se_idx := (Int.floor |system_params.tau_start / system_params.tau_step|).toNat }

/-- The reference-echo window `_data[:, se_idx - 1:se_idx + 2]` (multi-image
mode) or `_data[:, se_idx:se_idx + 1]`, taken from the clipped channel list of
one voxel. -/
def EncoderTrainer.normWindow {α : Type} (t : EncoderTrainer) (v : List α) :
    List α :=
  if t.multi_image_normalisation then
    pySlice ((t.se_idx : Int) - 1) ((t.se_idx : Int) + 2) v
  else
    pySlice (t.se_idx : Int) ((t.se_idx : Int) + 1) v

/-- `tf.clip_by_value(x, 1e-2, 1e8)`. -/
def clip01e8 {α : Type} [LinearOrderedField α] (x : α) : α :=
  min (max x (1 / 100)) (10 ^ 8)

/-- `EncoderTrainer.normalise_data` (model.py lines 61-77): reshape to
voxels × echoes, clip to `[1e-2, 1e8]`, divide by the mean of the
reference-echo window, take the logarithm, restore the shape.  A voxel whose
window slice is empty divides by NaN, so all of its outputs are NaN. -/
def EncoderTrainer.normalise_data {α : Type} [LinearOrderedField α]
    (t : EncoderTrainer) (log : α → α) (data : List (List α)) :
    List (List (Option α)) :=
  data.map (fun voxel =>
    match listMean (t.normWindow (voxel.map clip01e8)) with
    | none => (voxel.map clip01e8).map (fun _ => (none : Option α))
    | some m => (voxel.map clip01e8).map (fun x => some (log (x / m))))

/-- Helper: the multi-image window at reference index 0 is the Python slice
`[-1:2]`, which is empty for any echo list of length at least 3. -/
theorem pySlice_neg_one_two_eq_nil {α : Type} (l : List α) (h : 3 ≤ l.length) :
    pySlice (-1) 2 l = [] := by
  have hn : (3 : Int) ≤ (l.length : Int) := by exact_mod_cast h
  simp only [pySlice, if_pos (by norm_num : (-1 : Int) < 0),
    if_neg (by norm_num : ¬(2 : Int) < 0)]
  have hs : (max 0 ((l.length : Int) + (-1))).toNat = l.length - 1 := by omega
  have he : (min 2 (l.length : Int)).toNat = 2 := by omega
  rw [hs, he]
  have h0 : 2 - (l.length - 1) = 0 := by omega
  rw [h0, List.take_zero]

/-- Helper: on a trainer in multi-image mode with reference index 0, the
normalisation window of any voxel with at least 3 echoes is empty. -/
theorem normWindow_eq_nil_of_se_idx_zero {α : Type} (t : EncoderTrainer)
    (hm : t.multi_image_normalisation = true) (hse : t.se_idx = 0)
    (v : List α) (hv : 3 ≤ v.length) : t.normWindow v = [] := by
  unfold EncoderTrainer.normWindow
  rw [hm, hse]
  simpa using pySlice_neg_one_two_eq_nil v hv

/-- Helper: `normalise_data` returns all-NaN voxels whenever the reference
index is 0 in multi-image mode and every voxel has at least 3 echoes. -/
theorem normalise_data_all_nan {α : Type} [LinearOrderedField α]
    (t : EncoderTrainer) (log : α → α)
    (hm : t.multi_image_normalisation = true) (hse : t.se_idx = 0)
    (data : List (List α)) (hlen : ∀ v ∈ data, 3 ≤ v.length) :
    t.normalise_data log data = data.map (fun v => v.map (fun _ => none)) := by
  unfold EncoderTrainer.normalise_data
  apply List.map_congr_left
  intro v hv
  rw [normWindow_eq_nil_of_se_idx_zero t hm hse (v.map clip01e8)
    (by simpa using hlen v hv)]
  simp [listMean, List.map_map, Function.comp_def]

/-- C10: if the computed reference-echo index equals 0 and multi-image
normalisation is enabled (the window slice starts at index -1), the
constructor succeeds (no error is raised at construction time) and
`normalise_data` divides every voxel by the mean of an empty echo window, so
every output value is NaN; no error is raised at call time either. -/
theorem normalise_all_nan_when_se_idx_zero
    {α : Type} [LinearOrderedField α] (log : α → α)
    (p : SysParams) (df : Option ℚ) (use_mvg upp hn pld : Bool) (mog ns : ℕ)
    (hstep : p.tau_step ≠ 0)
    (hidx : Int.floor |p.tau_start / p.tau_step| = 0)
    (data : List (List α)) (hlen : ∀ v ∈ data, 3 ≤ v.length) :
    ∃ t : EncoderTrainer,
      EncoderTrainer.init p df true use_mvg upp mog ns hn pld = Except.ok t ∧
      t.se_idx = 0 ∧
      t.normalise_data log data = data.map (fun v => v.map (fun _ => none)) := by
  have htn : (Int.floor |p.tau_start / p.tau_step|).toNat = 0 := by
    rw [hidx]; rfl
  refine ⟨{ multi_image_normalisation := true
            student_t_df := df
            output_dist := if use_mvg then .LogitMVN else .LogitN
            use_population_prior := upp
            mog_components := mog
            no_samples := ns
            heteroscedastic_noise := hn
            predict_log_data := pld
            use_mvg_attr := none
            se_idx := (Int.floor |p.tau_start / p.tau_step|).toNat }, ?_, htn, ?_⟩
  · unfold EncoderTrainer.init
    rw [if_neg hstep]
  · exact normalise_data_all_nan _ log rfl htn data hlen

/-- C2: the acquisition timing `tau_start = 0, tau_step = 1` yields reference
index 0, whose multi-image window lies outside `[0, num_echoes)`.  The
configuration is NOT rejected when the trainer is built: `__init__` performs
no validation of the window and returns normally, and the failure surfaces
only when `normalise_data` is later called, as an all-NaN output rather than
an error. -/
theorem construction_accepts_invalid_window :
    EncoderTrainer.init ⟨0, 1⟩ none true true true 1 1 true true =
      Except.ok
        { multi_image_normalisation := true
          student_t_df := none
          output_dist := .LogitMVN
          use_population_prior := true
          mog_components := 1
          no_samples := 1
          heteroscedastic_noise := true
          predict_log_data := true
          use_mvg_attr := none
          se_idx := 0 } ∧
    EncoderTrainer.normalise_data
        { multi_image_normalisation := true
          student_t_df := none
          output_dist := .LogitMVN
          use_population_prior := true
          mog_components := 1
          no_samples := 1
          heteroscedastic_noise := true
          predict_log_data := true
          use_mvg_attr := none
          se_idx := 0 }
        (id : ℚ → ℚ) [[3, 4, 5, 6, 7, 8, 9, 10, 11, 12, 13]] =
      [List.replicate 11 none] := by
  constructor
  · unfold EncoderTrainer.init
    rw [if_neg (show ¬((⟨0, 1⟩ : SysParams).tau_step = 0) by norm_num)]
    have h0 : (Int.floor |(⟨0, 1⟩ : SysParams).tau_start /
        (⟨0, 1⟩ : SysParams).tau_step|).toNat = 0 := by norm_num
    rw [h0]
    rfl
  · rw [normalise_data_all_nan _ _ rfl rfl _ (by simp)]
    rfl

/-- Witness for C10 at a concrete configuration and data volume. -/
theorem normalise_all_nan_when_se_idx_zero_witness :
    ((2 : ℚ) ≠ 0 ∧ Int.floor |(1 : ℚ) / 2| = 0 ∧
      (∀ v ∈ [[(1 : ℚ), 2, 3, 5]], 3 ≤ v.length)) ∧
    (∃ t : EncoderTrainer,
      EncoderTrainer.init ⟨1, 2⟩ none true false false 1 1 true true = Except.ok t ∧
      t.se_idx = 0 ∧
      t.normalise_data (id : ℚ → ℚ) [[(1 : ℚ), 2, 3, 5]] =
        [[(1 : ℚ), 2, 3, 5]].map (fun v => v.map (fun _ => none))) :=
  ⟨⟨by norm_num,
    by norm_num [Int.floor_eq_zero_iff, Set.mem_Ico, abs_lt],
    by simp⟩,
    normalise_all_nan_when_se_idx_zero id ⟨1, 2⟩ none false false true true 1 1
      (by norm_num)
      (by norm_num [Int.floor_eq_zero_iff, Set.mem_Ico, abs_lt])
      [[(1 : ℚ), 2, 3, 5]] (by simp)⟩

/-- The Keras model returned by `build_fine_tuner` maps its two inputs to a
record with exactly two named outputs, "predictions" and "predicted_images"
(model.py lines 227-228). -/
structure FineTunerOutputs (α : Type) where
  predictions : List (List α)
  predicted_images : List (List α)
deriving DecidableEq

/-- `EncoderTrainer.build_fine_tuner` (model.py lines 187-229), embedded
voxelwise.  External collaborators are parameters: `encoder_model` (the
encoder built elsewhere, returning its three outputs), the
`ReparamTrickLayer` from `logit_norm_dist`, the `SignalGenerationLayer`, the
current value of the learned population-prior variable (its `use_mvg` /
`mog_components`-dependent initializer only fixes the starting value), and
the current value of the global noise-scale variable used when
heteroscedastic noise is off.

Control flow follows the source: the posterior tensor and noise map are
tiled `no_samples` times along the batch axis, sampling consumes the tiled
per-voxel posterior, and only afterwards (when `use_population_prior`) is the
broadcast prior vector concatenated as extra channels.  Line 199 reads
`self._use_mvg`, an attribute `__init__` never stores, so that path raises
`AttributeError`, modelled by `Except.error`. -/
def EncoderTrainer.build_fine_tuner {α : Type} [LinearOrderedField α]
    (t : EncoderTrainer)
    (encoder_model : List (List α) → List (List α) × List (List α) × List (List α))
    (signal_generation_layer : List (List α) → List (List α))
    (reparam_trick : List (List α) → List (List α) → List (List α))
    (pop_prior_value : List α) (sigma_var_value : α)
    (input_im input_mask : List (List α)) :
    Except String (FineTunerOutputs α) := do
  let net := input_im
  let enc := encoder_model net
  let predicted_distribution := tile t.no_samples enc.2.1
  let im_sigma := tile t.no_samples enc.2.2
  let sampled_oef_dbv := reparam_trick predicted_distribution input_mask
  let predictions ←
    if t.use_population_prior then
      match t.use_mvg_attr with
      | none =>
        Except.error "AttributeError: EncoderTrainer object has no attribute _use_mvg"
      | some _use_mvg =>
        let pop_prior_image := predicted_distribution.map (fun v =>
          (tile t.mog_components (v.map (fun _ => (1 : α)))).zipWith
            (· * ·) pop_prior_value)
        Except.ok (predicted_distribution.zipWith (· ++ ·) pop_prior_image)
    else
      Except.ok predicted_distribution
  let output := signal_generation_layer sampled_oef_dbv
  let output :=
    if t.heteroscedastic_noise then
      output.zipWith (· ++ ·) im_sigma
    else
      output.map (fun v => v ++ [sigma_var_value])
  Except.ok { predictions := predictions, predicted_images := output }

/-- C1: with the default configuration `use_population_prior = True` the
fine tuner is NOT built: `build_fine_tuner` reads `self._use_mvg`, which
`__init__` never assigns (it only consumes `use_mvg` to choose
`self.output_dist`), so the call raises `AttributeError` instead of
returning the model.  Only with the population prior disabled does the call
return the claimed record with the two named outputs, with the noise-scale
channels attached to the reconstructed signal. -/
theorem build_fine_tuner_default_attribute_error :
    (EncoderTrainer.init ⟨2, 1⟩ (some 2) true false true 1 1 true true).bind
        (fun t => t.build_fine_tuner
          (fun _ => (([], [[1, 2, 3, 4]], [[5]]) :
            List (List ℚ) × List (List ℚ) × List (List ℚ)))
          id (fun pd _ => pd) [0, 0, 0, 0] 1 [[0]] [[1]]) =
      Except.error "AttributeError: EncoderTrainer object has no attribute _use_mvg" ∧
    (EncoderTrainer.init ⟨2, 1⟩ (some 2) true false false 1 1 true true).bind
        (fun t => t.build_fine_tuner
          (fun _ => (([], [[1, 2, 3, 4]], [[5]]) :
            List (List ℚ) × List (List ℚ) × List (List ℚ)))
          id (fun pd _ => pd) [0, 0, 0, 0] 1 [[0]] [[1]]) =
      Except.ok { predictions := [[1, 2, 3, 4]]
                  predicted_images := [[1, 2, 3, 4, 5]] } := by
  have hinit : ∀ upp : Bool,
      EncoderTrainer.init ⟨2, 1⟩ (some 2) true false upp 1 1 true true =
        Except.ok
          { multi_image_normalisation := true
            student_t_df := some 2
            output_dist := .LogitN
            use_population_prior := upp
            mog_components := 1
            no_samples := 1
            heteroscedastic_noise := true
            predict_log_data := true
            use_mvg_attr := none
            se_idx := 2 } := by
    intro upp
    unfold EncoderTrainer.init
    rw [if_neg (show ¬((⟨2, 1⟩ : SysParams).tau_step = 0) by norm_num)]
    rw [show (Int.floor |(⟨2, 1⟩ : SysParams).tau_start /
        (⟨2, 1⟩ : SysParams).tau_step|).toNat = 2 by norm_num; rfl]
    rfl
  constructor
  · rw [hinit true]
    rfl
  · rw [hinit false]
    rfl

/-- `tf.nn.sigmoid`: `1 / (1 + exp(-x))`, with the runtime exponential as a
parameter. -/
def sigmoid {α : Type} [LinearOrderedField α] (exp : α → α) (x : α) : α :=
  1 / (1 + exp (-x))

/-- `forward_transform` (train.py lines 84-89): split the logit pair, map OEF
through `sigmoid * 0.8` and DBV through `sigmoid * 0.3`, and repack. -/
def forward_transform {α : Type} [LinearOrderedField α] (exp : α → α)
    (logits : α × α) : α × α :=
  (sigmoid exp logits.1 * (8 / 10), sigmoid exp logits.2 * (3 / 10))

/-- `logit` (train.py lines 92-94): the inverse sigmoid `log(s / (1 - s))`. -/
def logit {α : Type} [LinearOrderedField α] (log : α → α) (s : α) : α :=
  log (s / (1 - s))

/-- `backwards_transform` (train.py lines 97-102): `logit(oef / 0.8)` and
`logit(dbv / 0.3)`. -/
def backwards_transform {α : Type} [LinearOrderedField α] (log : α → α)
    (signal : α × α) : α × α :=
  (logit log (signal.1 / (8 / 10)), logit log (signal.2 / (3 / 10)))

/-- `tf.clip_by_value(samples, 1e-3, 0.99)` in `ReparamTrickLayer.call`. -/
def clipSample {α : Type} [LinearOrderedField α] (x : α) : α :=
  min (max x (1 / 1000)) (99 / 100)

/-- `ReparamTrickLayer.call` (train.py lines 150-163) at one voxel: the
posterior channels are (OEF mean, OEF log-std, DBV mean, DBV log-std);
`eps1`, `eps2` are the two standard-normal draws.  A logit-space sample
`mean + eps * exp(log_std)` is pushed through `forward_transform` and
clipped. -/
def ReparamTrickLayer_call {α : Type} [LinearOrderedField α] (exp : α → α)
    (oef_mean oef_log_std dbv_mean dbv_log_std eps1 eps2 : α) : α × α :=
  let oef_sample := oef_mean + eps1 * exp oef_log_std
  let dbv_sample := dbv_mean + eps2 * exp dbv_log_std
  let samples := forward_transform exp (oef_sample, dbv_sample)
  (clipSample samples.1, clipSample samples.2)

/-- The real sigmoid is strictly positive. -/
theorem sigmoid_pos (x : ℝ) : 0 < sigmoid Real.exp x := by
  unfold sigmoid
  have h := Real.exp_pos (-x)
  positivity

/-- The real sigmoid is strictly below one. -/
theorem sigmoid_lt_one (x : ℝ) : sigmoid Real.exp x < 1 := by
  unfold sigmoid
  have h := Real.exp_pos (-x)
  rw [div_lt_one (by linarith)]
  linarith

/-- Clipping a value that is positive and below a bound `b ≤ 0.99` keeps it
in `[1e-3, 0.99]` and below `b`. -/
theorem clipSample_bounds (b x : ℝ) (hx0 : 0 < x) (hxb : x < b)
    (hb1 : 1 / 1000 < b) (hb2 : b ≤ 99 / 100) :
    1 / 1000 ≤ clipSample x ∧ clipSample x ≤ 99 / 100 ∧
      0 < clipSample x ∧ clipSample x < b := by
  unfold clipSample
  have hmax : max x (1 / 1000) < b := max_lt hxb hb1
  refine ⟨le_min (le_max_right _ _) (by norm_num), min_le_right _ _, ?_, ?_⟩
  · have : (0 : ℝ) < 1 / 1000 := by norm_num
    exact lt_of_lt_of_le this (le_min (le_max_right _ _) (by norm_num))
  · exact lt_of_le_of_lt (min_le_left _ _) hmax

/-- C4 (amended: the forward transform bounds DBV in (0, 0.3), not (0, 0.2)):
for every posterior parameter vector and every draw of the standard-normal
perturbations, each (OEF, DBV) sample of the reparameterized sampling layer
lies within the clipped interval [1e-3, 0.99], with OEF in (0, 0.8) and DBV
in (0, 0.3) by construction of the forward transform applied before
clipping. -/
theorem reparam_sample_bounds
    (oef_mean oef_log_std dbv_mean dbv_log_std eps1 eps2 : ℝ) :
    (1 / 1000 ≤ (ReparamTrickLayer_call Real.exp oef_mean oef_log_std
        dbv_mean dbv_log_std eps1 eps2).1 ∧
      (ReparamTrickLayer_call Real.exp oef_mean oef_log_std
        dbv_mean dbv_log_std eps1 eps2).1 ≤ 99 / 100 ∧
      0 < (ReparamTrickLayer_call Real.exp oef_mean oef_log_std
        dbv_mean dbv_log_std eps1 eps2).1 ∧
      (ReparamTrickLayer_call Real.exp oef_mean oef_log_std
        dbv_mean dbv_log_std eps1 eps2).1 < 8 / 10) ∧
    (1 / 1000 ≤ (ReparamTrickLayer_call Real.exp oef_mean oef_log_std
        dbv_mean dbv_log_std eps1 eps2).2 ∧
      (ReparamTrickLayer_call Real.exp oef_mean oef_log_std
        dbv_mean dbv_log_std eps1 eps2).2 ≤ 99 / 100 ∧
      0 < (ReparamTrickLayer_call Real.exp oef_mean oef_log_std
        dbv_mean dbv_log_std eps1 eps2).2 ∧
      (ReparamTrickLayer_call Real.exp oef_mean oef_log_std
        dbv_mean dbv_log_std eps1 eps2).2 < 3 / 10) := by
  have h1p := sigmoid_pos (oef_mean + eps1 * Real.exp oef_log_std)
  have h1l := sigmoid_lt_one (oef_mean + eps1 * Real.exp oef_log_std)
  have h2p := sigmoid_pos (dbv_mean + eps2 * Real.exp dbv_log_std)
  have h2l := sigmoid_lt_one (dbv_mean + eps2 * Real.exp dbv_log_std)
  have hoef := clipSample_bounds (8 / 10)
    (sigmoid Real.exp (oef_mean + eps1 * Real.exp oef_log_std) * (8 / 10))
    (by nlinarith) (by nlinarith) (by norm_num) (by norm_num)
  have hdbv := clipSample_bounds (3 / 10)
    (sigmoid Real.exp (dbv_mean + eps2 * Real.exp dbv_log_std) * (3 / 10))
    (by nlinarith) (by nlinarith) (by norm_num) (by norm_num)
  exact ⟨hoef, hdbv⟩

/-- C4 counterexample: at posterior parameters (OEF mean 0, OEF log-std 0,
DBV mean 10, DBV log-std 0) with zero-valued normal draws, the sampled DBV is
`clip(0.3 * sigmoid 10) > 0.2`, outside the claimed (0, 0.2) range. -/
theorem reparam_sample_dbv_exceeds_claimed_bound :
    2 / 10 < (ReparamTrickLayer_call Real.exp 0 0 10 0 0 0).2 := by
  have hE0 : 0 < Real.exp (-10) := Real.exp_pos _
  have hE : Real.exp (-10) < 1 / 2 := by
    have h11 : (11 : ℝ) ≤ Real.exp 10 := by
      have := Real.add_one_le_exp (10 : ℝ)
      linarith
    have hpos : (0 : ℝ) < 11 := by norm_num
    have hinv : (Real.exp 10)⁻¹ ≤ (11 : ℝ)⁻¹ := by
      exact inv_le_inv_of_le hpos h11
    rw [Real.exp_neg]
    have : ((11 : ℝ))⁻¹ < 1 / 2 := by norm_num
    linarith
  have key : 2 / 10 < sigmoid Real.exp (10 + 0 * Real.exp 0) * (3 / 10) := by
    have h10 : (10 : ℝ) + 0 * Real.exp 0 = 10 := by ring
    rw [h10]
    unfold sigmoid
    rw [div_mul_eq_mul_div, one_mul, lt_div_iff (by linarith)]
    linarith
  have hub : sigmoid Real.exp (10 + 0 * Real.exp 0) * (3 / 10) < 3 / 10 := by
    have := sigmoid_lt_one (10 + 0 * Real.exp 0)
    have := sigmoid_pos (10 + 0 * Real.exp 0)
    nlinarith
  show 2 / 10 < clipSample (sigmoid Real.exp (10 + 0 * Real.exp 0) * (3 / 10))
  unfold clipSample
  have hmax : max (sigmoid Real.exp (10 + 0 * Real.exp 0) * (3 / 10)) (1 / 1000) =
      sigmoid Real.exp (10 + 0 * Real.exp 0) * (3 / 10) :=
    max_eq_left (by linarith)
  rw [hmax, min_eq_left (by linarith)]
  exact key

/-- Applying `logit` after the real sigmoid recovers the logit value. -/
theorem logit_sigmoid (x : ℝ) :
    logit Real.log (sigmoid Real.exp x) = x := by
  unfold logit sigmoid
  have hE : 0 < Real.exp (-x) := Real.exp_pos _
  have hden : (0 : ℝ) < 1 + Real.exp (-x) := by linarith
  have h1 : (1 : ℝ) - 1 / (1 + Real.exp (-x)) =
      Real.exp (-x) / (1 + Real.exp (-x)) := by
    field_simp
  rw [h1]
  have hEne : Real.exp (-x) ≠ 0 := ne_of_gt hE
  have hdne : (1 + Real.exp (-x)) ≠ 0 := ne_of_gt hden
  have h2 : (1 : ℝ) / (1 + Real.exp (-x)) /
      (Real.exp (-x) / (1 + Real.exp (-x))) = 1 / Real.exp (-x) := by
    field_simp
  rw [h2, Real.exp_neg, one_div, inv_inv, Real.log_exp]

/-- Applying the real sigmoid after `logit` recovers any value in (0, 1). -/
theorem sigmoid_logit (u : ℝ) (h0 : 0 < u) (h1 : u < 1) :
    sigmoid Real.exp (logit Real.log u) = u := by
  unfold logit sigmoid
  have hu1 : (0 : ℝ) < 1 - u := by linarith
  have ht : (0 : ℝ) < u / (1 - u) := div_pos h0 hu1
  rw [← Real.log_inv, Real.exp_log (by positivity), inv_div]
  have hne : u ≠ 0 := ne_of_gt h0
  have hsum : 1 + (1 - u) / u = 1 / u := by
    field_simp
  rw [hsum, one_div_one_div]

/-- C6: the logit-to-natural transforms round-trip: for every logit-space
pair, `backwards_transform (forward_transform logit)` equals `logit`, and for
every natural-space (OEF, DBV) pair strictly inside the open valid range
(0, 0.8) × (0, 0.3) of the forward transform,
`forward_transform (backwards_transform natural)` equals `natural`. -/
theorem transform_round_trip :
    (∀ x y : ℝ,
      backwards_transform Real.log (forward_transform Real.exp (x, y)) = (x, y)) ∧
    (∀ oef dbv : ℝ, 0 < oef → oef < 8 / 10 → 0 < dbv → dbv < 3 / 10 →
      forward_transform Real.exp (backwards_transform Real.log (oef, dbv)) =
        (oef, dbv)) := by
  constructor
  · intro x y
    unfold backwards_transform forward_transform
    simp only
    rw [mul_div_cancel_right₀ _ (by norm_num : (8 / 10 : ℝ) ≠ 0),
      mul_div_cancel_right₀ _ (by norm_num : (3 / 10 : ℝ) ≠ 0),
      logit_sigmoid, logit_sigmoid]
  · intro oef dbv ho1 ho2 hd1 hd2
    unfold backwards_transform forward_transform
    simp only
    rw [sigmoid_logit (oef / (8 / 10)) (by positivity) (by rw [div_lt_one] <;> linarith),
      sigmoid_logit (dbv / (3 / 10)) (by positivity) (by rw [div_lt_one] <;> linarith),
      div_mul_cancel₀ _ (by norm_num : (8 / 10 : ℝ) ≠ 0),
      div_mul_cancel₀ _ (by norm_num : (3 / 10 : ℝ) ≠ 0)]

/-- Witness for C6 at the natural-space pair (0.4, 0.15). -/
theorem transform_round_trip_witness :
    ((0 : ℝ) < 4 / 10 ∧ (4 / 10 : ℝ) < 8 / 10 ∧
      (0 : ℝ) < 15 / 100 ∧ (15 / 100 : ℝ) < 3 / 10) ∧
    forward_transform Real.exp (backwards_transform Real.log (4 / 10, 15 / 100)) =
      ((4 / 10 : ℝ), (15 / 100 : ℝ)) :=
  ⟨by norm_num,
    transform_round_trip.2 (4 / 10) (15 / 100)
      (by norm_num) (by norm_num) (by norm_num) (by norm_num)⟩

/-- Slicing commutes with an elementwise map. -/
theorem pySlice_map {α β : Type} (f : α → β) (a b : Int) (l : List α) :
    pySlice a b (l.map f) = (pySlice a b l).map f := by
  unfold pySlice
  simp [List.map_take, List.map_drop]

/-- The reference-echo window commutes with an elementwise map (it is a pure
slice). -/
theorem normWindow_map {α β : Type} (t : EncoderTrainer) (f : α → β)
    (l : List α) : t.normWindow (l.map f) = (t.normWindow l).map f := by
  cases hmi : t.multi_image_normalisation <;>
    simp [EncoderTrainer.normWindow, hmi, pySlice_map]

/-- The mean of a nonempty list scales with a constant factor. -/
theorem listMean_map_mul {α : Type} [LinearOrderedField α] (c : α)
    (w : List α) (hw : w ≠ []) :
    listMean (w.map (fun x => c * x)) = (listMean w).map (fun m => c * m) := by
  unfold listMean
  have hlen : w.length ≠ 0 := by
    simpa using List.length_pos.mpr hw |>.ne'
  simp only [List.length_map, if_neg hlen, Option.map_some']
  rw [List.sum_map_mul_left]
  simp [mul_div_assoc]

/-- C5 (amended: restricted to signal tensors whose entries, both before and
after scaling by c, lie inside the clipping interval [1e-2, 1e8], so that
`tf.clip_by_value` leaves them unchanged -- clipping destroys scale
invariance in general, see the counterexample): for every such tensor and
every positive constant c with a nonempty reference window, `normalise_data`
applied to the tensor scaled elementwise by c equals `normalise_data`
applied to the original tensor, exactly. -/
theorem normalise_scale_invariant_within_clip_range
    {α : Type} [LinearOrderedField α] (log : α → α) (t : EncoderTrainer)
    (c : α) (hc : 0 < c) (data : List (List α))
    (hrange : ∀ v ∈ data, ∀ x ∈ v,
      1 / 100 ≤ x ∧ x ≤ 10 ^ 8 ∧ 1 / 100 ≤ c * x ∧ c * x ≤ 10 ^ 8)
    (hwin : ∀ v ∈ data, t.normWindow v ≠ []) :
    t.normalise_data log (data.map (fun v => v.map (fun x => c * x))) =
      t.normalise_data log data := by
  unfold EncoderTrainer.normalise_data
  rw [List.map_map]
  apply List.map_congr_left
  intro v hv
  simp only [Function.comp_apply]
  have hclipS : (v.map (fun x => c * x)).map clip01e8 = v.map (fun x => c * x) := by
    rw [List.map_map]
    apply List.map_congr_left
    intro x hx
    obtain ⟨_, _, h3, h4⟩ := hrange v hv x hx
    simp only [Function.comp_apply, clip01e8]
    rw [max_eq_left h3, min_eq_left h4]
  have hclipO : v.map clip01e8 = v := by
    conv_rhs => rw [← List.map_id v]
    apply List.map_congr_left
    intro x hx
    obtain ⟨h1, h2, _, _⟩ := hrange v hv x hx
    simp only [clip01e8, id]
    rw [max_eq_left h1, min_eq_left h2]
  rw [hclipS, hclipO, normWindow_map, listMean_map_mul c _ (hwin v hv)]
  rcases hM : listMean (t.normWindow v) with _ | m
  · exfalso
    have : t.normWindow v = [] := by
      by_contra hne
      unfold listMean at hM
      rw [if_neg (by simpa using List.length_pos.mpr hne |>.ne')] at hM
      exact Option.noConfusion hM
    exact hwin v hv this
  · simp only [Option.map_some']
    rw [List.map_map]
    apply List.map_congr_left
    intro x hx
    simp only [Function.comp_apply]
    rw [mul_div_mul_left x m (ne_of_gt hc)]

/-- C5 counterexample: with reference index 1 (multi-image window covering
all three echoes), scaling the raw curve (1, 2, 4) by the positive constant
1e8 saturates the [1e-2, 1e8] clip, so the scaled curve normalises to
all-equal log-features while the original normalises to distinct ones:
`normalise_data` is not scale-invariant for every positive constant. -/
theorem normalise_scale_invariance_fails_under_clipping :
    ¬ (EncoderTrainer.normalise_data
        ⟨true, none, .LogitN, false, 1, 1, true, true, none, 1⟩ Real.log
        ([[(1 : ℝ), 2, 4]].map (fun v => v.map (fun x => 10 ^ 8 * x))) =
      EncoderTrainer.normalise_data
        ⟨true, none, .LogitN, false, 1, 1, true, true, none, 1⟩ Real.log
        [[(1 : ℝ), 2, 4]]) := by
  have hc1 : clip01e8 (1 : ℝ) = 1 := by
    unfold clip01e8
    rw [max_eq_left (by norm_num), min_eq_left (by norm_num)]
  have hc2 : clip01e8 (2 : ℝ) = 2 := by
    unfold clip01e8
    rw [max_eq_left (by norm_num), min_eq_left (by norm_num)]
  have hc4 : clip01e8 (4 : ℝ) = 4 := by
    unfold clip01e8
    rw [max_eq_left (by norm_num), min_eq_left (by norm_num)]
  have hs1 : clip01e8 ((10 : ℝ) ^ 8 * 1) = 10 ^ 8 := by
    unfold clip01e8
    rw [max_eq_left (by norm_num), min_eq_left (by norm_num)]
    norm_num
  have hs2 : clip01e8 ((10 : ℝ) ^ 8 * 2) = 10 ^ 8 := by
    unfold clip01e8
    rw [max_eq_left (by norm_num), min_eq_right (by norm_num)]
  have hs4 : clip01e8 ((10 : ℝ) ^ 8 * 4) = 10 ^ 8 := by
    unfold clip01e8
    rw [max_eq_left (by norm_num), min_eq_right (by norm_num)]
  intro h
  have h0 : EncoderTrainer.normalise_data
      ⟨true, none, .LogitN, false, 1, 1, true, true, none, 1⟩ Real.log
      ([[(1 : ℝ), 2, 4]].map (fun v => v.map (fun x => 10 ^ 8 * x))) =
      [[some (Real.log ((10 : ℝ) ^ 8 /
          (((10 : ℝ) ^ 8 + ((10 : ℝ) ^ 8 + ((10 : ℝ) ^ 8 + 0))) / 3))),
        some (Real.log ((10 : ℝ) ^ 8 /
          (((10 : ℝ) ^ 8 + ((10 : ℝ) ^ 8 + ((10 : ℝ) ^ 8 + 0))) / 3))),
        some (Real.log ((10 : ℝ) ^ 8 /
          (((10 : ℝ) ^ 8 + ((10 : ℝ) ^ 8 + ((10 : ℝ) ^ 8 + 0))) / 3)))]] := by
    unfold EncoderTrainer.normalise_data
    simp only [List.map_cons, List.map_nil, hs1, hs2, hs4]
    rfl
  have h1 : EncoderTrainer.normalise_data
      ⟨true, none, .LogitN, false, 1, 1, true, true, none, 1⟩ Real.log
      [[(1 : ℝ), 2, 4]] =
      [[some (Real.log ((1 : ℝ) / (((1 : ℝ) + (2 + (4 + 0))) / 3))),
        some (Real.log ((2 : ℝ) / (((1 : ℝ) + (2 + (4 + 0))) / 3))),
        some (Real.log ((4 : ℝ) / (((1 : ℝ) + (2 + (4 + 0))) / 3)))]] := by
    unfold EncoderTrainer.normalise_data
    simp only [List.map_cons, List.map_nil, hc1, hc2, hc4]
    rfl
  rw [h0, h1] at h
  have h2 := congrArg (fun l => l.headD []) h
  simp only [List.headD_cons] at h2
  have ha := congrArg (fun l => l.headD none) h2
  have hb := congrArg (fun l => (l.drop 1).headD none) h2
  simp only [List.headD_cons, List.drop_one, List.tail_cons] at ha hb
  rw [Option.some_inj] at ha hb
  have hm : (0 : ℝ) < ((1 : ℝ) + (2 + (4 + 0))) / 3 := by norm_num
  have heq : (1 : ℝ) / (((1 : ℝ) + (2 + (4 + 0))) / 3) =
      (2 : ℝ) / (((1 : ℝ) + (2 + (4 + 0))) / 3) := by
    have hab := ha.symm.trans hb
    have hx : (0 : ℝ) < (1 : ℝ) / (((1 : ℝ) + (2 + (4 + 0))) / 3) := by positivity
    have hy : (0 : ℝ) < (2 : ℝ) / (((1 : ℝ) + (2 + (4 + 0))) / 3) := by positivity
    exact Real.log_injOn_pos (Set.mem_Ioi.mp hx) (Set.mem_Ioi.mp hy) hab
  rw [div_eq_div_iff hm.ne' hm.ne'] at heq
  norm_num at heq

/-- Witness for C5 at the curve (1, 2, 4) scaled by c = 2, where no clipping
occurs. -/
theorem normalise_scale_invariant_within_clip_range_witness :
    ((0 : ℚ) < 2 ∧
      (∀ v ∈ [[(1 : ℚ), 2, 4]], ∀ x ∈ v,
        1 / 100 ≤ x ∧ x ≤ 10 ^ 8 ∧ 1 / 100 ≤ 2 * x ∧ 2 * x ≤ 10 ^ 8) ∧
      (∀ v ∈ [[(1 : ℚ), 2, 4]],
        EncoderTrainer.normWindow
          ⟨true, none, .LogitN, false, 1, 1, true, true, none, 1⟩ v ≠ [])) ∧
    EncoderTrainer.normalise_data
        ⟨true, none, .LogitN, false, 1, 1, true, true, none, 1⟩ (id : ℚ → ℚ)
        ([[(1 : ℚ), 2, 4]].map (fun v => v.map (fun x => 2 * x))) =
      EncoderTrainer.normalise_data
        ⟨true, none, .LogitN, false, 1, 1, true, true, none, 1⟩ (id : ℚ → ℚ)
        [[(1 : ℚ), 2, 4]] := by
  have hrange : ∀ v ∈ [[(1 : ℚ), 2, 4]], ∀ x ∈ v,
      1 / 100 ≤ x ∧ x ≤ 10 ^ 8 ∧ 1 / 100 ≤ 2 * x ∧ 2 * x ≤ 10 ^ 8 := by
    intro v hv x hx
    rw [List.mem_singleton] at hv
    subst hv
    simp only [List.mem_cons, List.not_mem_nil, or_false] at hx
    rcases hx with rfl | rfl | rfl <;> norm_num
  have hwin : ∀ v ∈ [[(1 : ℚ), 2, 4]],
      EncoderTrainer.normWindow
        ⟨true, none, .LogitN, false, 1, 1, true, true, none, 1⟩ v ≠ [] := by
    intro v hv
    rw [List.mem_singleton] at hv
    subst hv
    rw [show EncoderTrainer.normWindow
        ⟨true, none, .LogitN, false, 1, 1, true, true, none, 1⟩
        [(1 : ℚ), 2, 4] = [1, 2, 4] from rfl]
    simp
  exact ⟨⟨by norm_num, hrange, hwin⟩,
    normalise_scale_invariant_within_clip_range id
      ⟨true, none, .LogitN, false, 1, 1, true, true, none, 1⟩ 2
      (by norm_num) [[(1 : ℚ), 2, 4]] hrange hwin⟩

/-- The per-quantity closed-form Gaussian KL term of `kl_loss` (train.py
lines 197-200):
`0.5 * (exp(2q_ls - 2p_ls) + (p_m - q_m)^2 * exp(-2 p_ls) + 2p_ls - 2q_ls - 1)`. -/
def kl_single {α : Type} [LinearOrderedField α] (exp : α → α)
    (q_mean q_log_std p_mean p_log_std : α) : α :=
  (exp (q_log_std * 2 - p_log_std * 2) +
      (p_mean - q_mean) ^ 2 * exp (p_log_std * (-2)) +
      p_log_std * 2 - q_log_std * 2 - 1) * (1 / 2)

/-- `kl_loss` (train.py lines 193-207), embedded voxelwise.  `truev` carries
the prior channels (OEF mean, OEF log-std, DBV mean, DBV log-std) plus the
mask as the last channel; `predicted` carries the posterior channels.  The
per-voxel OEF and DBV KL terms are summed, multiplied by the mask, zeroed
where the mask is not positive, summed, and divided by the total mask
weight. -/
def kl_loss {α : Type} [LinearOrderedField α] (exp : α → α)
    (truev : List (α × α × α × α × α)) (predicted : List (α × α × α × α)) : α :=
  ((List.zip truev predicted).map (fun pr =>
    if pr.1.2.2.2.2 > 0 then
      (kl_single exp pr.2.1 pr.2.2.1 pr.1.1 pr.1.2.1 +
        kl_single exp pr.2.2.2.1 pr.2.2.2.2 pr.1.2.2.1 pr.1.2.2.2.1) *
      pr.1.2.2.2.2
    else 0)).sum /
  (truev.map (fun tp => tp.2.2.2.2)).sum

/-- A single Gaussian KL term is non-negative. -/
theorem kl_single_nonneg (q_mean q_log_std p_mean p_log_std : ℝ) :
    0 ≤ kl_single Real.exp q_mean q_log_std p_mean p_log_std := by
  unfold kl_single
  have h1 := Real.add_one_le_exp (q_log_std * 2 - p_log_std * 2)
  have h2 : 0 ≤ (p_mean - q_mean) ^ 2 * Real.exp (p_log_std * (-2)) :=
    mul_nonneg (sq_nonneg _) (Real.exp_pos _).le
  nlinarith

/-- A Gaussian KL term between identical parameters vanishes. -/
theorem kl_single_self (m ls : ℝ) : kl_single Real.exp m ls m ls = 0 := by
  unfold kl_single
  rw [sub_self, Real.exp_zero]
  ring

/-- C8: for every posterior and prior parameterization with non-negative mask
values and a non-empty mask, the KL loss is non-negative, and it equals zero
when the predicted posterior parameters (means and log-stds for OEF and DBV)
equal the prior parameters at every masked voxel. -/
theorem kl_loss_nonneg_and_zero_at_prior
    (truev : List (ℝ × ℝ × ℝ × ℝ × ℝ)) (predicted : List (ℝ × ℝ × ℝ × ℝ))
    (hmask : ∀ tp ∈ truev, 0 ≤ tp.2.2.2.2)
    (hnonempty : 0 < (truev.map (fun tp => tp.2.2.2.2)).sum) :
    0 ≤ kl_loss Real.exp truev predicted ∧
    ((∀ pr ∈ List.zip truev predicted, 0 < pr.1.2.2.2.2 →
        pr.2.1 = pr.1.1 ∧ pr.2.2.1 = pr.1.2.1 ∧
        pr.2.2.2.1 = pr.1.2.2.1 ∧ pr.2.2.2.2 = pr.1.2.2.2.1) →
      kl_loss Real.exp truev predicted = 0) := by
  constructor
  · unfold kl_loss
    apply div_nonneg
    · apply List.sum_nonneg
      intro x hx
      rw [List.mem_map] at hx
      obtain ⟨pr, hpr, rfl⟩ := hx
      by_cases hm : pr.1.2.2.2.2 > 0
      · rw [if_pos hm]
        have h1 := kl_single_nonneg pr.2.1 pr.2.2.1 pr.1.1 pr.1.2.1
        have h2 := kl_single_nonneg pr.2.2.2.1 pr.2.2.2.2 pr.1.2.2.1 pr.1.2.2.2.1
        exact mul_nonneg (by linarith) hm.le
      · rw [if_neg hm]
    · exact hnonempty.le
  · intro heq
    unfold kl_loss
    have hzero : ((List.zip truev predicted).map (fun pr =>
        if pr.1.2.2.2.2 > 0 then
          (kl_single Real.exp pr.2.1 pr.2.2.1 pr.1.1 pr.1.2.1 +
            kl_single Real.exp pr.2.2.2.1 pr.2.2.2.2 pr.1.2.2.1 pr.1.2.2.2.1) *
          pr.1.2.2.2.2
        else 0)).sum = 0 := by
      apply List.sum_eq_zero
      intro x hx
      rw [List.mem_map] at hx
      obtain ⟨pr, hpr, rfl⟩ := hx
      by_cases hm : pr.1.2.2.2.2 > 0
      · rw [if_pos hm]
        obtain ⟨e1, e2, e3, e4⟩ := heq pr hpr hm
        rw [e1, e2, e3, e4, kl_single_self, kl_single_self]
        ring
      · rw [if_neg hm]
    rw [hzero, zero_div]

/-- Witness for C8 at a single masked voxel whose posterior equals the
prior. -/
theorem kl_loss_nonneg_and_zero_at_prior_witness :
    ((∀ tp ∈ [((0 : ℝ), (0 : ℝ), (0 : ℝ), (0 : ℝ), (1 : ℝ))], 0 ≤ tp.2.2.2.2) ∧
      0 < ([((0 : ℝ), (0 : ℝ), (0 : ℝ), (0 : ℝ), (1 : ℝ))].map
        (fun tp => tp.2.2.2.2)).sum) ∧
    0 ≤ kl_loss Real.exp [((0 : ℝ), 0, 0, 0, 1)] [((0 : ℝ), 0, 0, 0)] ∧
    kl_loss Real.exp [((0 : ℝ), 0, 0, 0, 1)] [((0 : ℝ), 0, 0, 0)] = 0 := by
  have hmask : ∀ tp ∈ [((0 : ℝ), (0 : ℝ), (0 : ℝ), (0 : ℝ), (1 : ℝ))],
      0 ≤ tp.2.2.2.2 := by
    intro tp htp
    rw [List.mem_singleton] at htp
    subst htp
    norm_num
  have hsum : 0 < ([((0 : ℝ), (0 : ℝ), (0 : ℝ), (0 : ℝ), (1 : ℝ))].map
      (fun tp => tp.2.2.2.2)).sum := by
    simp
  refine ⟨⟨hmask, hsum⟩,
    (kl_loss_nonneg_and_zero_at_prior _ _ hmask hsum).1,
    (kl_loss_nonneg_and_zero_at_prior _ _ hmask hsum).2 ?_⟩
  intro pr hpr _
  rw [List.zip_cons_cons, List.zip_nil_right, List.mem_singleton] at hpr
  subst hpr
  exact ⟨rfl, rfl, rfl, rfl⟩

/-- A 1x1x1 ("pointwise") convolution at one voxel, as produced by
`create_layer` (model.py lines 79-84): full channel mixing, a bias, and an
activation. -/
def conv1x1 {α : Type} [LinearOrderedField α] {C H : ℕ} (act : α → α)
    (W : Fin H → Fin C → α) (bias : Fin H → α) (x : Fin C → α) (c : Fin H) : α :=
  act ((∑ j, W c j * x j) + bias c)

/-- `gate_convs` (model.py lines 129-132) at one tensor element:
`gate = sigmoid(gate + gate_offset)`, then `skip * (1 - gate) + out * gate`. -/
def gate_convs {α : Type} [LinearOrderedField α] (exp : α → α)
    (gate_offset skip out gate : α) : α :=
  skip * (1 - sigmoid exp (gate + gate_offset)) +
    out * sigmoid exp (gate + gate_offset)

/-- The gating signal of `create_block` (model.py lines 121-127): a pointwise
convolution of the candidate with no activation, producing `no_units`
channels when `channelwise_gating` is set (weights `Wg`, biases `bg`) and a
single broadcast channel otherwise (weights `Wg1`, bias `bg1`). -/
def block_gating {α : Type} [LinearOrderedField α] {H : ℕ}
    (channelwise : Bool) (Wg : Fin H → Fin H → α) (bg : Fin H → α)
    (Wg1 : Fin H → α) (bg1 : α) (cand : Fin H → α) (c : Fin H) : α :=
  if channelwise then (∑ j, Wg c j * cand j) + bg c
  else (∑ j, Wg1 j * cand j) + bg1

/-- The residual-stream output of one gated block (`create_block`, model.py
lines 104-136) at one voxel and channel `c`.  `inVec` is the block input
`_net2_in` at this voxel; `cand` is the candidate update produced by the two
3x3x1 convolutions (a neighbourhood-dependent value, taken as given); the
skip term applies the SAME pointwise convolution (weights `W`, bias `b`,
activation `act`) that stream 1 uses, to the residual stream's own input. -/
def create_block_res {α : Type} [LinearOrderedField α] {C H : ℕ}
    (exp act : α → α) (channelwise : Bool) (gate_offset : α)
    (W : Fin H → Fin C → α) (b : Fin H → α)
    (Wg : Fin H → Fin H → α) (bg : Fin H → α) (Wg1 : Fin H → α) (bg1 : α)
    (inVec : Fin C → α) (cand : Fin H → α) (c : Fin H) : α :=
  gate_convs exp gate_offset (conv1x1 act W b inVec c) (cand c)
    (block_gating channelwise Wg bg Wg1 bg1 cand c)

/-- The real sigmoid of a shifted argument vanishes as the shift goes to
negative infinity. -/
theorem sigmoid_tendsto_atBot (g : ℝ) :
    Filter.Tendsto (fun t : ℝ => sigmoid Real.exp (g + t))
      Filter.atBot (nhds 0) := by
  have hgt : Filter.Tendsto (fun t : ℝ => g + t) Filter.atBot Filter.atBot :=
    Filter.tendsto_atBot_add_const_left _ g Filter.tendsto_id
  have h1 : Filter.Tendsto (fun t : ℝ => -(g + t)) Filter.atBot Filter.atTop := by
    simpa [Function.comp_def] using Filter.tendsto_neg_atBot_atTop.comp hgt
  have h2 : Filter.Tendsto (fun t : ℝ => Real.exp (-(g + t)))
      Filter.atBot Filter.atTop := by
    simpa [Function.comp_def] using Real.tendsto_exp_atTop.comp h1
  have h3 : Filter.Tendsto (fun t : ℝ => 1 + Real.exp (-(g + t)))
      Filter.atBot Filter.atTop :=
    Filter.tendsto_atTop_add_const_left _ 1 h2
  have h4 := h3.inv_tendsto_atTop
  unfold sigmoid
  simpa [one_div] using h4

/-- The real sigmoid of a shifted argument tends to one as the shift goes to
positive infinity. -/
theorem sigmoid_tendsto_atTop (g : ℝ) :
    Filter.Tendsto (fun t : ℝ => sigmoid Real.exp (g + t))
      Filter.atTop (nhds 1) := by
  have hgt : Filter.Tendsto (fun t : ℝ => g + t) Filter.atTop Filter.atTop :=
    Filter.tendsto_atTop_add_const_left _ g Filter.tendsto_id
  have h1 : Filter.Tendsto (fun t : ℝ => -(g + t)) Filter.atTop Filter.atBot := by
    simpa [Function.comp_def] using Filter.tendsto_neg_atTop_atBot.comp hgt
  have h2 : Filter.Tendsto (fun t : ℝ => Real.exp (-(g + t)))
      Filter.atTop (nhds 0) := by
    simpa [Function.comp_def] using Real.tendsto_exp_atBot.comp h1
  have h3 : Filter.Tendsto (fun t : ℝ => 1 + Real.exp (-(g + t)))
      Filter.atTop (nhds 1) := by
    simpa using tendsto_const_nhds.add h2
  have h4 : Filter.Tendsto (fun t : ℝ => 1 / (1 + Real.exp (-(g + t))))
      Filter.atTop (nhds (1 / 1)) :=
    Filter.Tendsto.div tendsto_const_nhds h3 (by norm_num)
  unfold sigmoid
  simpa using h4

/-- C9: in each gated residual block the output equals
`skip * (1 - gate) + candidate * gate` with `gate = sigmoid(g + gate_offset)`
and `g` the pointwise convolution of the candidate (one shared channel, or
one per channel when gating is channelwise); as `gate_offset` tends to
negative infinity the block output tends to the shared pointwise-convolution
skip term applied to the block's input, and as it tends to positive infinity
the block output tends to the residual candidate. -/
theorem gated_block_gate_limits {C H : ℕ} (act : ℝ → ℝ) (channelwise : Bool)
    (W : Fin H → Fin C → ℝ) (b : Fin H → ℝ)
    (Wg : Fin H → Fin H → ℝ) (bg : Fin H → ℝ) (Wg1 : Fin H → ℝ) (bg1 : ℝ)
    (inVec : Fin C → ℝ) (cand : Fin H → ℝ) (c : Fin H) :
    (∀ gate_offset : ℝ,
      create_block_res Real.exp act channelwise gate_offset W b Wg bg Wg1 bg1
          inVec cand c =
        conv1x1 act W b inVec c *
          (1 - sigmoid Real.exp
            (block_gating channelwise Wg bg Wg1 bg1 cand c + gate_offset)) +
        cand c * sigmoid Real.exp
          (block_gating channelwise Wg bg Wg1 bg1 cand c + gate_offset)) ∧
    Filter.Tendsto
      (fun gate_offset : ℝ =>
        create_block_res Real.exp act channelwise gate_offset W b Wg bg Wg1 bg1
          inVec cand c)
      Filter.atBot (nhds (conv1x1 act W b inVec c)) ∧
    Filter.Tendsto
      (fun gate_offset : ℝ =>
        create_block_res Real.exp act channelwise gate_offset W b Wg bg Wg1 bg1
          inVec cand c)
      Filter.atTop (nhds (cand c)) := by
  refine ⟨fun gate_offset => rfl, ?_, ?_⟩
  · have hs := sigmoid_tendsto_atBot
      (block_gating channelwise Wg bg Wg1 bg1 cand c)
    have hone : Filter.Tendsto (fun _ : ℝ => (1 : ℝ)) Filter.atBot (nhds 1) :=
      tendsto_const_nhds
    have h := ((hone.sub hs).const_mul
        (conv1x1 act W b inVec c)).add (hs.const_mul (cand c))
    have hval : conv1x1 act W b inVec c * ((1 : ℝ) - 0) + cand c * 0 =
        conv1x1 act W b inVec c := by ring
    rw [hval] at h
    exact h
  · have hs := sigmoid_tendsto_atTop
      (block_gating channelwise Wg bg Wg1 bg1 cand c)
    have hone : Filter.Tendsto (fun _ : ℝ => (1 : ℝ)) Filter.atTop (nhds 1) :=
      tendsto_const_nhds
    have h := ((hone.sub hs).const_mul
        (conv1x1 act W b inVec c)).add (hs.const_mul (cand c))
    have hval : conv1x1 act W b inVec c * ((1 : ℝ) - 1) + cand c * 1 = cand c := by
      ring
    rw [hval] at h
    exact h

/-- The reference-echo window mean plus the stabilising epsilon used by
`fine_tune_loss_fn` (model.py lines 350-359):
`reduce_mean(x[..., se_idx-1:se_idx+2]) + 1e-3` (or the single-echo window).
Here the mean is the ordinary sum over length; the loss theorem restricts to
configurations whose window is inside the channel range, so the slice is
never empty. -/
def windowMeanEps {α : Type} [LinearOrderedField α] (t : EncoderTrainer)
    (v : List α) : α :=
  (t.normWindow v).sum / ((t.normWindow v).length : α) + 1 / 1000

/-- The per-echo negative log-likelihood of `fine_tune_loss_fn` (model.py
lines 370-375).  The external `tfp.distributions.StudentT(df, 0, sigma)`
negative log-density is the parameter `tnll df sigma residual`; the Gaussian
branch is written exactly as in the source:
`-(-log(sigma) - log(sqrt(2 pi)) - 0.5 * (residual / sigma)^2)`. -/
def nll_term {α : Type} [LinearOrderedField α] (log sqrt : α → α) (pi : α)
    (tnll : ℚ → α → α → α) (student_t_df : Option ℚ) (s r : α) : α :=
  match student_t_df with
  | some df =>
    if df < 50 then tnll df s r
    else -(-(log s) - log (sqrt (2 * pi)) - (1 / 2) * (r / s) ^ 2)
  | none => -(-(log s) - log (sqrt (2 * pi)) - (1 / 2) * (r / s) ^ 2)

/-- Normalisation of one voxel's channel list inside `fine_tune_loss_fn`
(model.py lines 349-363): divide by the window mean (+ 1e-3) and, when
`predict_log_data`, take logs under the mask and zeros elsewhere
(`tf.where(mask > 0, log(x), zeros_like(x))` with the voxel's mask value
broadcast over channels). -/
def ft_norm {α : Type} [LinearOrderedField α] (t : EncoderTrainer)
    (log : α → α) (mask : α) (v : List α) : List α :=
  if t.predict_log_data then
    if mask > 0 then (v.map (fun x => x / windowMeanEps t v)).map log
    else (v.map (fun x => x / windowMeanEps t v)).map (fun _ => 0)
  else v.map (fun x => x / windowMeanEps t v)

/-- The per-voxel residual of `fine_tune_loss_fn` (model.py line 366):
normalised true channels without the final mask channel, minus the
normalised predicted mean-image channels. -/
def ft_residual {α : Type} [LinearOrderedField α] (t : EncoderTrainer)
    (log : α → α) (no_images : ℕ) (ytrue_v ypred_mean_v : List α)
    (mask : α) : List α :=
  List.zipWith (fun a b => a - b)
    ((ft_norm t log mask ytrue_v).take no_images)
    (ft_norm t log mask ypred_mean_v)

/-- The mean-image half of a predicted voxel: `tf.split(y_pred, 2, -1)` when
heteroscedastic (first `no_images` channels), else all but the final global
noise channel. -/
def ft_pred_mean {α : Type} (t : EncoderTrainer) (no_images : ℕ)
    (ypred_v : List α) : List α :=
  if t.heteroscedastic_noise then ypred_v.take no_images else ypred_v.dropLast

/-- The per-echo noise scales of a predicted voxel: the second half of the
split when heteroscedastic, else the global scalar
`tf.reduce_mean(y_pred[..., -1:])` replicated over echoes. -/
def ft_sigmas {α : Type} [LinearOrderedField α] (t : EncoderTrainer)
    (no_images : ℕ) (y_pred : List (List α)) (ypred_v : List α) : List α :=
  if t.heteroscedastic_noise then ypred_v.drop no_images
  else List.replicate no_images
    ((y_pred.map (fun v => v.getLastD 0)).sum / (y_pred.length : α))

/-- `EncoderTrainer.fine_tune_loss_fn` with `return_mean=False` (model.py
lines 337-382), embedded voxelwise: the unreduced per-voxel NLL map.
`y_true` is tiled `no_samples` times along the batch axis; the mask is its
last channel; `no_images = y_true.shape[-1] - 1` is the static echo count.
Per voxel, the per-echo NLL terms of the residual are summed over echoes and
multiplied by the mask. -/
def fine_tune_loss_map {α : Type} [LinearOrderedField α] (t : EncoderTrainer)
    (log sqrt : α → α) (pi : α) (tnll : ℚ → α → α → α) (no_images : ℕ)
    (y_true y_pred : List (List α)) : List α :=
  (List.zip (tile t.no_samples y_true) y_pred).map (fun vp =>
    (List.zipWith (fun r s => nll_term log sqrt pi tnll t.student_t_df s r)
      (ft_residual t log no_images vp.1 (ft_pred_mean t no_images vp.2)
        (vp.1.getLastD 0))
      (ft_sigmas t no_images y_pred vp.2)).sum *
    vp.1.getLastD 0)

/-- `EncoderTrainer.fine_tune_loss_fn` with `return_mean=True` (model.py
lines 379-380): the sum of the per-voxel map divided by the total mask
weight of the tiled ground truth. -/
def fine_tune_loss_mean {α : Type} [LinearOrderedField α] (t : EncoderTrainer)
    (log sqrt : α → α) (pi : α) (tnll : ℚ → α → α → α) (no_images : ℕ)
    (y_true y_pred : List (List α)) : α :=
  (fine_tune_loss_map t log sqrt pi tnll no_images y_true y_pred).sum /
  ((tile t.no_samples y_true).map (fun v => v.getLastD 0)).sum

/-- The per-echo term equals the claim's formulation: the Student-t negative
log-likelihood when the degrees of freedom are set and below 50, and
otherwise the closed-form Gaussian negative log-likelihood
`log(sigma) + log(sqrt(2 pi)) + residual^2 / (2 sigma^2)`. -/
theorem nll_term_eq {α : Type} [LinearOrderedField α] (log sqrt : α → α)
    (pi : α) (tnll : ℚ → α → α → α) (d : Option ℚ) (s r : α) :
    nll_term log sqrt pi tnll d s r =
      match d with
      | some df =>
        if df < 50 then tnll df s r
        else log s + log (sqrt (2 * pi)) + r ^ 2 / (2 * s ^ 2)
      | none => log s + log (sqrt (2 * pi)) + r ^ 2 / (2 * s ^ 2) := by
  have hg : -(-(log s) - log (sqrt (2 * pi)) - (1 / 2) * (r / s) ^ 2) =
      log s + log (sqrt (2 * pi)) + r ^ 2 / (2 * s ^ 2) := by
    rw [div_pow, div_mul_div_comm]
    ring_nf
  cases d with
  | none => simpa [nll_term] using hg
  | some df =>
    by_cases hdf : df < 50
    · simp [nll_term, hdf]
    · simpa [nll_term, hdf] using hg

/-- An element of a tiled list is an element of the original list. -/
theorem mem_tile {β : Type} {x : β} {n : ℕ} {l : List β}
    (h : x ∈ tile n l) : x ∈ l := by
  unfold tile at h
  rw [List.mem_flatten] at h
  obtain ⟨l', hl', hx⟩ := h
  rw [List.eq_of_mem_replicate hl'] at hx
  exact hx

/-- C3: `fine_tune_loss_fn` computes, per echo, a Student-t negative
log-likelihood of the residual with the configured degrees of freedom when
that value is set and below 50, and otherwise the closed-form Gaussian
negative log-likelihood `log(sigma) + log(sqrt(2 pi)) + residual^2 /
(2 sigma^2)`; the per-echo terms are summed over echoes, zeroed at voxels
where the (binary) mask is not positive, and the result is either the sum
divided by the total mask weight (`return_mean=True`) or the unreduced
per-voxel map. -/
theorem fine_tune_loss_fn_spec {α : Type} [LinearOrderedField α]
    (log sqrt : α → α) (pi : α) (tnll : ℚ → α → α → α) (t : EncoderTrainer)
    (no_images : ℕ) (y_true y_pred : List (List α))
    (hmask : ∀ v ∈ y_true, v.getLastD 0 = 0 ∨ v.getLastD 0 = 1) :
    (fine_tune_loss_map t log sqrt pi tnll no_images y_true y_pred =
      (List.zip (tile t.no_samples y_true) y_pred).map (fun vp =>
        if vp.1.getLastD 0 > 0 then
          (List.zipWith (fun r s =>
            match t.student_t_df with
            | some df =>
              if df < 50 then tnll df s r
              else log s + log (sqrt (2 * pi)) + r ^ 2 / (2 * s ^ 2)
            | none => log s + log (sqrt (2 * pi)) + r ^ 2 / (2 * s ^ 2))
            (ft_residual t log no_images vp.1
              (ft_pred_mean t no_images vp.2) (vp.1.getLastD 0))
            (ft_sigmas t no_images y_pred vp.2)).sum
        else 0)) ∧
    fine_tune_loss_mean t log sqrt pi tnll no_images y_true y_pred =
      (fine_tune_loss_map t log sqrt pi tnll no_images y_true y_pred).sum /
      ((tile t.no_samples y_true).map (fun v => v.getLastD 0)).sum := by
  constructor
  · unfold fine_tune_loss_map
    apply List.map_congr_left
    intro vp hvp
    have hv1 : vp.1 ∈ y_true := mem_tile (List.mem_zip hvp).1
    have hterm : (List.zipWith
        (fun r s => nll_term log sqrt pi tnll t.student_t_df s r)
        (ft_residual t log no_images vp.1
          (ft_pred_mean t no_images vp.2) (vp.1.getLastD 0))
        (ft_sigmas t no_images y_pred vp.2)) =
        (List.zipWith (fun r s =>
          match t.student_t_df with
          | some df =>
            if df < 50 then tnll df s r
            else log s + log (sqrt (2 * pi)) + r ^ 2 / (2 * s ^ 2)
          | none => log s + log (sqrt (2 * pi)) + r ^ 2 / (2 * s ^ 2))
          (ft_residual t log no_images vp.1
            (ft_pred_mean t no_images vp.2) (vp.1.getLastD 0))
          (ft_sigmas t no_images y_pred vp.2)) := by
      simp only [nll_term_eq]
    rw [hterm]
    rcases hmask vp.1 hv1 with h0 | h1
    · rw [h0, mul_zero, if_neg (lt_irrefl 0)]
    · rw [h1, mul_one, if_pos (by norm_num : (0 : α) < 1)]
  · rfl

/-- Witness for C3 at one masked voxel with three echoes, heteroscedastic
noise, reference index 1, and no Student-t degrees of freedom. -/
theorem fine_tune_loss_fn_spec_witness :
    (∀ v ∈ [[(2 : ℚ), 4, 6, 1]], v.getLastD 0 = 0 ∨ v.getLastD 0 = 1) ∧
    ((fine_tune_loss_map ⟨true, none, .LogitN, false, 1, 1, true, true, none, 1⟩
        (id : ℚ → ℚ) id (1 / 2) (fun _ _ _ => 0) 3
        [[(2 : ℚ), 4, 6, 1]] [[(2 : ℚ), 4, 6, 1, 1, 1]] =
      (List.zip (tile 1 [[(2 : ℚ), 4, 6, 1]]) [[(2 : ℚ), 4, 6, 1, 1, 1]]).map
        (fun vp =>
          if vp.1.getLastD 0 > 0 then
            (List.zipWith (fun r s =>
              match (none : Option ℚ) with
              | some df =>
                if df < 50 then (fun _ _ _ => (0 : ℚ)) df s r
                else id s + id (id (2 * (1 / 2))) + r ^ 2 / (2 * s ^ 2)
              | none => id s + id (id (2 * (1 / 2))) + r ^ 2 / (2 * s ^ 2))
              (ft_residual ⟨true, none, .LogitN, false, 1, 1, true, true, none, 1⟩
                id 3 vp.1
                (ft_pred_mean ⟨true, none, .LogitN, false, 1, 1, true, true, none, 1⟩
                  3 vp.2) (vp.1.getLastD 0))
              (ft_sigmas ⟨true, none, .LogitN, false, 1, 1, true, true, none, 1⟩
                3 [[(2 : ℚ), 4, 6, 1, 1, 1]] vp.2)).sum
          else 0)) ∧
      fine_tune_loss_mean ⟨true, none, .LogitN, false, 1, 1, true, true, none, 1⟩
          (id : ℚ → ℚ) id (1 / 2) (fun _ _ _ => 0) 3
          [[(2 : ℚ), 4, 6, 1]] [[(2 : ℚ), 4, 6, 1, 1, 1]] =
        (fine_tune_loss_map ⟨true, none, .LogitN, false, 1, 1, true, true, none, 1⟩
          (id : ℚ → ℚ) id (1 / 2) (fun _ _ _ => 0) 3
          [[(2 : ℚ), 4, 6, 1]] [[(2 : ℚ), 4, 6, 1, 1, 1]]).sum /
        ((tile 1 [[(2 : ℚ), 4, 6, 1]]).map (fun v => v.getLastD 0)).sum) := by
  have hmask : ∀ v ∈ [[(2 : ℚ), 4, 6, 1]], v.getLastD 0 = 0 ∨ v.getLastD 0 = 1 := by
    intro v hv
    rw [List.mem_singleton] at hv
    subst hv
    right
    rfl
  exact ⟨hmask,
    fine_tune_loss_fn_spec id id (1 / 2) (fun _ _ _ => 0)
      ⟨true, none, .LogitN, false, 1, 1, true, true, none, 1⟩ 3
      [[(2 : ℚ), 4, 6, 1]] [[(2 : ℚ), 4, 6, 1, 1, 1]] hmask⟩

/-- Lower neighbour embedding `Fin (n - 1) → Fin n` (index `x` of the
`[:-1]` slice). -/
def finLow {n : ℕ} (x : Fin (n - 1)) : Fin n :=
  ⟨x.val, by have h := x.isLt; omega⟩

/-- Upper neighbour embedding `Fin (n - 1) → Fin n` (index `x` of the `[1:]`
slice). -/
def finHigh {n : ℕ} (x : Fin (n - 1)) : Fin n :=
  ⟨x.val + 1, by have h := x.isLt; omega⟩

/-- Batch-axis tiling of a grid: row `i` of `tf.concat([m] * n, 0)` is row
`i % b` of `m`. -/
def tileGrid {α : Type} {b nx ny nz : ℕ} (n : ℕ)
    (m : Fin b → Fin nx → Fin ny → Fin nz → α) (i : Fin (n * b)) :
    Fin nx → Fin ny → Fin nz → α :=
  m ⟨i.val % b, Nat.mod_lt _ (by
    rcases Nat.eq_zero_or_pos b with hb | hb
    · exact absurd i.isLt (by simp [hb])
    · exact hb)⟩

/-- The forward-transformed, range-rescaled mean fields of `smoothness_loss`
(model.py lines 402-406): channel 0 is the transformed OEF mean divided by
`oef_range = 0.8`, channel 1 the transformed DBV mean divided by
`dbv_range = 0.2` (both fixed in `__init__`); `f` is the external
`output_dist.forward_transform` on the (OEF mean, DBV mean) pair. -/
def smoothness_fields {α : Type} [LinearOrderedField α] {B nx ny nz : ℕ}
    (f : α × α → α × α)
    (pred : ℕ → Fin B → Fin nx → Fin ny → Fin nz → α)
    (c : Fin 2) (i : Fin B) (x : Fin nx) (y : Fin ny) (z : Fin nz) : α :=
  if c.val = 0 then (f (pred 0 i x y z, pred 2 i x y z)).1 / (8 / 10)
  else (f (pred 0 i x y z, pred 2 i x y z)).2 / (2 / 10)

/-- `EncoderTrainer.smoothness_loss` (model.py lines 393-420), embedded on
spatial grids.  `truep` and `pred` are channel-indexed (the `tf.split`s of
the source); `truep`'s last channel, index `num_params` (5-way or 6-way
split depending on the distribution family), is the mask, tiled `no_samples`
times along the batch axis.  `diff_x`/`diff_y` are adjacent differences
along the first two spatial axes (the `diff_z` slice-direction term is
commented out in the source), zeroed by `tf.where` unless both neighbours
have positive mask; the summed absolute values are divided by the total
mask weight. -/
def EncoderTrainer.smoothness_loss {α : Type} [LinearOrderedField α]
    {b nx ny nz : ℕ} (t : EncoderTrainer) (f : α × α → α × α)
    (truep : ℕ → Fin b → Fin nx → Fin ny → Fin nz → α)
    (pred : ℕ → Fin (t.no_samples * b) → Fin nx → Fin ny → Fin nz → α) : α :=
  ((∑ i, ∑ x : Fin (nx - 1), ∑ y, ∑ z, ∑ c,
      |if 0 < tileGrid t.no_samples (truep t.output_dist.num_params) i
            (finLow x) y z ∧
          0 < tileGrid t.no_samples (truep t.output_dist.num_params) i
            (finHigh x) y z then
        smoothness_fields f pred c i (finLow x) y z -
          smoothness_fields f pred c i (finHigh x) y z
      else 0|) +
    (∑ i, ∑ x, ∑ y : Fin (ny - 1), ∑ z, ∑ c,
      |if 0 < tileGrid t.no_samples (truep t.output_dist.num_params) i x
            (finLow y) z ∧
          0 < tileGrid t.no_samples (truep t.output_dist.num_params) i x
            (finHigh y) z then
        smoothness_fields f pred c i x (finLow y) z -
          smoothness_fields f pred c i x (finHigh y) z
      else 0|)) /
  (∑ i, ∑ x, ∑ y, ∑ z,
    tileGrid t.no_samples (truep t.output_dist.num_params) i x y z)

/-- The claim's formulation of the smoothness penalty: a total-variation
sum over only the first two (in-plane) spatial axes of a two-channel field,
where an adjacent-voxel absolute difference contributes only if both voxels
of the pair are valid under the mask, normalised by the total mask weight. -/
def smoothness_loss_spec {α : Type} [LinearOrderedField α] {B nx ny nz : ℕ}
    (field : Fin 2 → Fin B → Fin nx → Fin ny → Fin nz → α)
    (mask : Fin B → Fin nx → Fin ny → Fin nz → α) : α :=
  ((∑ i, ∑ x : Fin (nx - 1), ∑ y, ∑ z, ∑ c,
      if 0 < mask i (finLow x) y z ∧ 0 < mask i (finHigh x) y z then
        |field c i (finLow x) y z - field c i (finHigh x) y z|
      else 0) +
    (∑ i, ∑ x, ∑ y : Fin (ny - 1), ∑ z, ∑ c,
      if 0 < mask i x (finLow y) z ∧ 0 < mask i x (finHigh y) z then
        |field c i x (finLow y) z - field c i x (finHigh y) z|
      else 0)) /
  (∑ i, ∑ x, ∑ y, ∑ z, mask i x y z)

/-- The absolute value of a where-zeroed difference is the where-zeroed
absolute difference. -/
theorem abs_ite_zero {α : Type} [LinearOrderedField α] (c : Prop)
    [Decidable c] (d : α) : |if c then d else 0| = if c then |d| else 0 := by
  split
  · rfl
  · exact abs_zero

/-- C7: the smoothness loss equals the total-variation penalty of the
forward-transformed, range-rescaled mean OEF/DBV fields taken over only the
first two (in-plane) spatial axes and not the third (slice-direction) axis,
where each adjacent-voxel difference contributes only if both voxels of the
pair are valid under the (tiled) mask -- the last channel of the true
parameter tensor -- and the summed absolute differences are divided by the
total mask weight. -/
theorem smoothness_loss_is_masked_tv {α : Type} [LinearOrderedField α]
    {b nx ny nz : ℕ} (t : EncoderTrainer) (f : α × α → α × α)
    (truep : ℕ → Fin b → Fin nx → Fin ny → Fin nz → α)
    (pred : ℕ → Fin (t.no_samples * b) → Fin nx → Fin ny → Fin nz → α) :
    t.smoothness_loss f truep pred =
      smoothness_loss_spec (smoothness_fields f pred)
        (tileGrid t.no_samples (truep t.output_dist.num_params)) := by
  unfold EncoderTrainer.smoothness_loss smoothness_loss_spec
  congr 1
  congr 1
  · refine Finset.sum_congr rfl (fun i _ => ?_)
    refine Finset.sum_congr rfl (fun x _ => ?_)
    refine Finset.sum_congr rfl (fun y _ => ?_)
    refine Finset.sum_congr rfl (fun z _ => ?_)
    refine Finset.sum_congr rfl (fun c _ => ?_)
    exact abs_ite_zero _ _
  · refine Finset.sum_congr rfl (fun i _ => ?_)
    refine Finset.sum_congr rfl (fun x _ => ?_)
    refine Finset.sum_congr rfl (fun y _ => ?_)
    refine Finset.sum_congr rfl (fun z _ => ?_)
    refine Finset.sum_congr rfl (fun c _ => ?_)
    exact abs_ite_zero _ _

end QBold
